/-
Verification of the real-time collaboration session manager
(`src/backend/src/app/api/v1/websocket.py`) of the giraffe_demo backend.

The Python module is shallowly embedded: Python dicts become association
lists over `String` keys (preserving insertion order, as CPython dicts do),
JSON values become the inductive `JVal`, wall-clock timestamps become `Nat`
values threaded as parameters, and every side effect (websocket send,
failed send, spawned background task, database append, connection close)
becomes an explicit `Event` in a returned trace.  Fallible externals
(token verification, project lookup, persistence, per-recipient send
success) are passed in as explicit oracles.
-/
import Mathlib

set_option linter.unusedVariables false

/-- A JSON-like value as exchanged on the wire. -/
inductive JVal where
  | s : String → JVal
  | n : Nat → JVal
  | null : JVal
  | arr : List JVal → JVal
  | obj : List (String × JVal) → JVal

/-- A wire message (a JSON object), as an ordered association list,
mirroring a CPython `dict`. -/
abbrev Msg := List (String × JVal)

/-! ### Python-dict operations on ordered association lists -/

/-- `d.get(key)` / `d[key]`: first (and, under the no-duplicate-keys
invariant, only) binding of `key`. -/
def aget {α : Type} : List (String × α) → String → Option α
  | [], _ => none
  | (k, v) :: t, key => if k = key then some v else aget t key

/-- `d[key] = val`: replace the binding in place if present (CPython keeps
the slot's position), else append a new binding. -/
def aset {α : Type} : List (String × α) → String → α → List (String × α)
  | [], key, val => [(key, val)]
  | (k, v) :: t, key, val =>
      if k = key then (key, val) :: t else (k, v) :: aset t key val

/-- `d.pop(key, default)` / `del d[key]`: drop the first binding of `key`. -/
def adel {α : Type} : List (String × α) → String → List (String × α)
  | [], _ => []
  | (k, v) :: t, key => if k = key then t else (k, v) :: adel t key

/-- `key in d`. -/
def acontains {α : Type} (d : List (String × α)) (key : String) : Bool :=
  (aget d key).isSome

@[simp] theorem aget_nil {α : Type} (key : String) :
    aget ([] : List (String × α)) key = none := rfl

theorem aget_aset_same {α : Type} (d : List (String × α)) (key : String) (val : α) :
    aget (aset d key val) key = some val := by
  induction d with
  | nil => simp [aget, aset]
  | cons p t ih =>
      obtain ⟨k, v⟩ := p
      by_cases h : k = key <;> simp [aget, aset, h, ih]

theorem aget_aset_other {α : Type} (d : List (String × α)) (key key' : String)
    (val : α) (hne : key ≠ key') :
    aget (aset d key val) key' = aget d key' := by
  induction d with
  | nil => simp [aget, aset, hne]
  | cons p t ih =>
      obtain ⟨k, v⟩ := p
      by_cases h : k = key
      · subst h; simp [aget, aset, hne]
      · simp only [aset, if_neg h, aget]
        by_cases h' : k = key' <;> simp [h', ih]

theorem aget_adel_other {α : Type} (d : List (String × α)) (key key' : String)
    (hne : key ≠ key') :
    aget (adel d key) key' = aget d key' := by
  induction d with
  | nil => simp [adel]
  | cons p t ih =>
      obtain ⟨k, v⟩ := p
      by_cases h : k = key
      · subst h; simp [adel, aget, hne]
      · simp only [adel, if_neg h, aget]
        by_cases h' : k = key' <;> simp [h', ih]

theorem aget_eq_none_of_not_mem {α : Type} (d : List (String × α)) (key : String)
    (h : key ∉ d.map Prod.fst) : aget d key = none := by
  induction d with
  | nil => rfl
  | cons p t ih =>
      obtain ⟨k, v⟩ := p
      simp only [List.map_cons, List.mem_cons, not_or] at h
      have hk : k ≠ key := fun he => h.1 he.symm
      simp only [aget, if_neg hk]
      exact ih h.2

theorem aget_adel_same {α : Type} (d : List (String × α)) (key : String)
    (hnd : (d.map Prod.fst).Nodup) :
    aget (adel d key) key = none := by
  induction d with
  | nil => simp [adel]
  | cons p t ih =>
      obtain ⟨k, v⟩ := p
      simp only [List.map_cons, List.nodup_cons] at hnd
      by_cases h : k = key
      · subst h
        simp only [adel, if_pos rfl]
        exact aget_eq_none_of_not_mem t k hnd.1
      · simp only [adel, if_neg h, aget, if_neg h]
        exact ih hnd.2

theorem aset_eq_of_aget {α : Type} (d : List (String × α)) (key : String) (val : α)
    (h : aget d key = some val) : aset d key val = d := by
  induction d with
  | nil => simp [aget] at h
  | cons p t ih =>
      obtain ⟨k, v⟩ := p
      by_cases hk : k = key
      · subst hk
        simp only [aget, if_pos rfl] at h
        injection h with h
        simp [aset, h]
      · simp only [aget, if_neg hk] at h
        simp [aset, hk, ih h]

theorem adel_eq_of_not_mem {α : Type} (d : List (String × α)) (key : String)
    (h : aget d key = none) : adel d key = d := by
  induction d with
  | nil => rfl
  | cons p t ih =>
      obtain ⟨k, v⟩ := p
      by_cases hk : k = key
      · subst hk; simp [aget] at h
      · simp only [aget, if_neg hk] at h
        simp [adel, hk, ih h]

/-! ### Data model: presence sessions and the connection manager -/

/-- Python truthiness of a JSON value (`if user_info:` in `disconnect`). -/
def JVal.isTruthy : JVal → Bool
  | .s v => !(v = "")
  | .n v => !(v = 0)
  | .null => false
  | .arr l => !l.isEmpty
  | .obj l => !l.isEmpty

/-- One entry of `ConnectionManager.user_sessions[project_id]`:
the dict built in `connect` (user info plus two ISO timestamps,
modelled as `Nat`). -/
structure SessionInfo where
  user_info : JVal
  connected_at : Nat
  last_activity : Nat

/-- The in-memory state of `ConnectionManager`:
`active_connections : Dict[project_id, Dict[user_id, WebSocket]]`
(websocket handles are opaque `Nat` ids) and
`user_sessions : Dict[project_id, Dict[user_id, session]]`. -/
structure ConnectionManager where
  active_connections : List (String × List (String × Nat))
  user_sessions : List (String × List (String × SessionInfo))

/-- The manager constructed at module load: both dicts empty. -/
def ConnectionManager.empty : ConnectionManager := ⟨[], []⟩

/-- Observable effects of the session manager, in program order:
successful sends, failed send attempts, background tasks spawned by
`asyncio.create_task` (the `user_left` broadcast in `disconnect`),
edit-history appends, and websocket closes. -/
inductive Event where
  | sent (recipient : String) (msg : Msg)
  | sendFailed (recipient : String) (msg : Msg)
  | scheduledBroadcast (project_id : String) (msg : Msg) (exclude_user_id : Option String)
  | appended (project_id user_id : String) (rec_action rec_object_type : JVal)
      (rec_object_id rec_changes rec_previous_data rec_new_data rec_session_id : Option JVal)
  | closed (code : Nat)

/-- The `user_left` envelope built inside `disconnect`. -/
def userLeftMsg (user_id : String) (user_info : JVal) (now : Nat) : Msg :=
  [("type", .s "user_left"), ("user_id", .s user_id),
   ("user_info", user_info), ("timestamp", .n now)]

/-- The `user_joined` envelope built inside `connect`. -/
def userJoinedMsg (user_id : String) (user_info : JVal) (now : Nat) : Msg :=
  [("type", .s "user_joined"), ("user_id", .s user_id),
   ("user_info", user_info), ("timestamp", .n now)]

/-- `ConnectionManager.disconnect(project_id, user_id)`.  Removes the
member's websocket slot (dropping the project entry if it became empty),
pops the member's session, and — when the popped session carried truthy
user info — spawns a `user_left` broadcast task excluding the departed
member.  Returns the new state and the emitted events. -/
def ConnectionManager.disconnect (m : ConnectionManager)
    (project_id user_id : String) (now : Nat) :
    ConnectionManager × List Event :=
  let ac :=
    match aget m.active_connections project_id with
    | none => m.active_connections
    | some conns =>
        let conns' := adel conns user_id
        if conns'.isEmpty then adel m.active_connections project_id
        else aset m.active_connections project_id conns'
  match aget m.user_sessions project_id with
  | none => (⟨ac, m.user_sessions⟩, [])
  | some sess =>
      let infoOpt := (aget sess user_id).map SessionInfo.user_info
      let sess' := adel sess user_id
      let us :=
        if sess'.isEmpty then adel m.user_sessions project_id
        else aset m.user_sessions project_id sess'
      match infoOpt with
      | some info =>
          if info.isTruthy then
            (⟨ac, us⟩,
             [Event.scheduledBroadcast project_id
                (userLeftMsg user_id info now) (some user_id)])
          else (⟨ac, us⟩, [])
      | none => (⟨ac, us⟩, [])

/-- The send loop of `broadcast_to_project`: one send attempt per
non-excluded member, in snapshot order, appending a `sendFailed` event
and recording the member in `failed_connections` when the `sendFails`
oracle says the channel is broken. -/
def sendPhase (message : Msg) (exclude_user_id : Option String)
    (sendFails : String → Bool) : List (String × Nat) → List Event × List String
  | [] => ([], [])
  | p :: t =>
      let rest := sendPhase message exclude_user_id sendFails t
      if exclude_user_id = some p.1 then rest
      else if sendFails p.1 then
        (Event.sendFailed p.1 message :: rest.1, p.1 :: rest.2)
      else (Event.sent p.1 message :: rest.1, rest.2)

/-- The trailing cleanup loop of `broadcast_to_project`:
`for user_id in failed_connections: self.disconnect(project_id, user_id)`. -/
def cleanupPhase (project_id : String) (now : Nat) (m : ConnectionManager) :
    List String → ConnectionManager × List Event
  | [] => (m, [])
  | uid :: t =>
      let r := m.disconnect project_id uid now
      let rest := cleanupPhase project_id now r.1 t
      (rest.1, r.2 ++ rest.2)

/-- `ConnectionManager.broadcast_to_project(project_id, message,
exclude_user_id)`.  Iterates the project's current member snapshot in
insertion order, skips the excluded member, attempts a send to each other
member (a per-recipient failure, given by the `sendFails` oracle, is
captured rather than raised), then disconnects every failed recipient.
The collected `failed_connections` list (`(sendPhase ...).2`) is a local
of the function, consumed only by its own cleanup loop; the Python
function body has no `return expr` statement (the project-absent early
exit is a bare `return`), so the value returned to the caller — the
third component here — is `None` on every path.  The first two
components are the effects: the new state and the events. -/
def ConnectionManager.broadcast_to_project (m : ConnectionManager)
    (project_id : String) (message : Msg) (exclude_user_id : Option String)
    (sendFails : String → Bool) (now : Nat) :
    ConnectionManager × List Event × Option (List String) :=
  match aget m.active_connections project_id with
  | none => (m, [], none)
  | some conns =>
      let sends := sendPhase message exclude_user_id sendFails conns
      let cleanup := cleanupPhase project_id now m sends.2
      (cleanup.1, sends.1 ++ cleanup.2, none)

/-- `ConnectionManager.send_personal_message(websocket, message)`: one
send attempt whose failure is caught and logged, never raised. -/
def ConnectionManager.send_personal_message (recipient : String) (message : Msg)
    (sendFails : String → Bool) : Event :=
  if sendFails recipient then Event.sendFailed recipient message
  else Event.sent recipient message

/-- `ConnectionManager.connect(websocket, project_id, user_id, user_info)`.
Registers the websocket and the presence session, broadcasts
`user_joined` to the other members, then sends the new connection an
`active_users` snapshot of all members other than itself. -/
def ConnectionManager.connect (m : ConnectionManager) (websocket : Nat)
    (project_id user_id : String) (user_info : JVal)
    (sendFails : String → Bool) (now : Nat) :
    ConnectionManager × List Event :=
  let ac0 :=
    if acontains m.active_connections project_id then m.active_connections
    else aset m.active_connections project_id []
  let ac := aset ac0 project_id
    (aset ((aget ac0 project_id).getD []) user_id websocket)
  let us0 :=
    if acontains m.user_sessions project_id then m.user_sessions
    else aset m.user_sessions project_id []
  let us := aset us0 project_id
    (aset ((aget us0 project_id).getD []) user_id
      ⟨user_info, now, now⟩)
  let m1 : ConnectionManager := ⟨ac, us⟩
  let bc := m1.broadcast_to_project project_id
    (userJoinedMsg user_id user_info now) (some user_id) sendFails now
  let active_users :=
    ((aget bc.1.user_sessions project_id).getD []).filterMap
      (fun p =>
        if p.1 = user_id then none
        else some (JVal.obj
          [("user_id", .s p.1), ("user_info", p.2.user_info),
           ("connected_at", .n p.2.connected_at)]))
  let snapshot : Msg :=
    [("type", .s "active_users"), ("users", .arr active_users),
     ("timestamp", .n now)]
  (bc.1, bc.2.1 ++
    [ConnectionManager.send_personal_message user_id snapshot sendFails])

/-- `ConnectionManager.get_project_users(project_id)`: the presence
snapshot served by `GET /projects/{id}/users`. -/
def ConnectionManager.get_project_users (m : ConnectionManager)
    (project_id : String) : List Msg :=
  match aget m.user_sessions project_id with
  | none => []
  | some sess => sess.map (fun p =>
      [("user_id", .s p.1), ("user_info", p.2.user_info),
       ("connected_at", .n p.2.connected_at),
       ("last_activity", .n p.2.last_activity)])

/-! ### Edit persistence (`handle_edit_message` and the `EditHistory` model) -/

/-- The persisted projection of an accepted `edit` envelope, mirroring
`app.models.project.EditHistory` (nullable columns become `Option`). -/
structure EditHistoryRec where
  project_id : String
  user_id : String
  action : JVal
  object_type : JVal
  object_id : Option JVal
  changes : Option JVal
  previous_data : Option JVal
  new_data : Option JVal
  session_id : Option JVal

/-- The `EditHistory(...)` constructor call inside `handle_edit_message`:
`message.get("action", "unknown")`, `message.get("object_type", "unknown")`,
and plain `message.get(...)` (defaulting to `None`) for the rest. -/
def mkEditHistory (project_id user_id : String) (message : Msg) : EditHistoryRec :=
  { project_id := project_id
    user_id := user_id
    action := (aget message "action").getD (.s "unknown")
    object_type := (aget message "object_type").getD (.s "unknown")
    object_id := aget message "object_id"
    changes := aget message "changes"
    previous_data := aget message "previous_data"
    new_data := aget message "new_data"
    session_id := aget message "session_id" }

/-- The `appended` trace event for a record. -/
def EditHistoryRec.event (r : EditHistoryRec) : Event :=
  .appended r.project_id r.user_id r.action r.object_type
    r.object_id r.changes r.previous_data r.new_data r.session_id

/-- `handle_edit_message(project_id, user_id, message, db)`.  Builds the
record and commits it; any persistence failure (the `persistOk` oracle)
is caught inside the function — the transaction is rolled back, nothing
is sent to anyone, and the coroutine returns normally.  Returns the new
edit-history table and the trace of this call. -/
def handle_edit_message (persistOk : Bool) (db : List EditHistoryRec)
    (project_id user_id : String) (message : Msg) :
    List EditHistoryRec × List Event :=
  if persistOk then
    let r := mkEditHistory project_id user_id message
    (db ++ [r], [r.event])
  else (db, [])

/-! ### The steady-state loop of `project_websocket` -/

/-- The broadcast copy built for `edit` and `cursor` envelopes:
`{**message, "user_id": ..., "user_info": ..., "timestamp": ...}` —
the three server-set keys override any client-supplied bindings. -/
def stampMsg (message : Msg) (user_id : String) (user_info : JVal)
    (now : Nat) : Msg :=
  aset (aset (aset message "user_id" (.s user_id))
    "user_info" user_info) "timestamp" (.n now)

/-- The `last_activity` touch done for every parsed inbound message. -/
def ConnectionManager.touch (m : ConnectionManager)
    (project_id user_id : String) (now : Nat) : ConnectionManager :=
  match aget m.user_sessions project_id with
  | none => m
  | some sess =>
      match aget sess user_id with
      | none => m
      | some s =>
          ⟨m.active_connections,
           aset m.user_sessions project_id
             (aset sess user_id { s with last_activity := now })⟩

/-- One inbound frame: either text that fails `json.loads`, or a parsed
JSON object. -/
inductive Inbound where
  | malformed
  | msg (message : Msg)

/-- Result of processing one inbound frame. -/
structure StepResult where
  cm : ConnectionManager
  db : List EditHistoryRec
  events : List Event

/-- The body of the `while True` receive loop of `project_websocket`,
for one inbound frame: malformed JSON is answered with a personal
`error` envelope; a parsed message first touches `last_activity`, then
dispatches on `type` — `edit` persists (via `handle_edit_message`) and
then broadcasts the stamped copy to the other members, `cursor` just
broadcasts the stamped copy, `ping` is answered with a personal `pong`,
and anything else is only logged. -/
def handle_parsed (cm : ConnectionManager) (db : List EditHistoryRec)
    (project_id user_id : String) (user_info : JVal) (message : Msg)
    (persistOk : Bool) (sendFails : String → Bool) (now : Nat) : StepResult :=
  match aget message "type" with
  | some (.s "edit") =>
      let pe := handle_edit_message persistOk db project_id user_id message
      let bc := (cm.touch project_id user_id now).broadcast_to_project
        project_id (stampMsg message user_id user_info now) (some user_id)
        sendFails now
      ⟨bc.1, pe.1, pe.2 ++ bc.2.1⟩
  | some (.s "cursor") =>
      let bc := (cm.touch project_id user_id now).broadcast_to_project
        project_id (stampMsg message user_id user_info now) (some user_id)
        sendFails now
      ⟨bc.1, db, bc.2.1⟩
  | some (.s "ping") =>
      ⟨cm.touch project_id user_id now, db,
       [ConnectionManager.send_personal_message user_id
          [("type", .s "pong"), ("timestamp", .n now)] sendFails]⟩
  | _ => ⟨cm.touch project_id user_id now, db, []⟩

def handle_inbound (cm : ConnectionManager) (db : List EditHistoryRec)
    (project_id user_id : String) (user_info : JVal) (inbound : Inbound)
    (persistOk : Bool) (sendFails : String → Bool) (now : Nat) : StepResult :=
  match inbound with
  | .malformed =>
      ⟨cm, db,
       [ConnectionManager.send_personal_message user_id
          [("type", .s "error"), ("message", .s "Invalid JSON format"),
           ("timestamp", .n now)] sendFails]⟩
  | .msg message =>
      handle_parsed cm db project_id user_id user_info message
        persistOk sendFails now

/-- How the receive loop of a joined connection ends: a normal peer
disconnect (`WebSocketDisconnect`, caught and logged) or an unexpected
fault escaping the inner `try`. -/
inductive ExitCause where
  | peerDisconnect
  | fault

/-- One inbound frame together with the oracles in force while it is
processed: persistence success, per-recipient send success, and the
current clock. -/
structure LoopInput where
  inbound : Inbound
  persistOk : Bool
  sendFails : String → Bool
  now : Nat

/-- The life of a joined connection after `manager.connect`: the receive
loop processes each inbound frame in order, the loop ends for `cause`,
and then — `WebSocketDisconnect` handler or not — the `finally` block
runs `manager.disconnect`; if the loop ended in an unexpected fault the
outer handler additionally closes the socket with code 4500. -/
def runLoop (project_id user_id : String) (user_info : JVal)
    (cm : ConnectionManager) (db : List EditHistoryRec) :
    List LoopInput → StepResult
  | [] => ⟨cm, db, []⟩
  | i :: t =>
      let r := handle_inbound cm db project_id user_id user_info
        i.inbound i.persistOk i.sendFails i.now
      let rest := runLoop project_id user_id user_info r.cm r.db t
      ⟨rest.cm, rest.db, r.events ++ rest.events⟩

def run_joined (cm : ConnectionManager) (db : List EditHistoryRec)
    (project_id user_id : String) (user_info : JVal)
    (inputs : List LoopInput) (cause : ExitCause) (nowEnd : Nat) : StepResult :=
  let loop := runLoop project_id user_id user_info cm db inputs
  let fin := loop.cm.disconnect project_id user_id nowEnd
  let tail :=
    match cause with
    | .peerDisconnect => []
    | .fault => [Event.closed 4500]
  ⟨fin.1, loop.db, loop.events ++ fin.2 ++ tail⟩

/-! ### Connection establishment (`project_websocket` before the loop) -/

/-- A row of the `users` table, as far as the endpoint reads it. -/
structure UserRec where
  id : String
  username : String
  full_name : String
  email : String

/-- A row of the `projects` table, as far as the endpoint reads it. -/
structure ProjectRec where
  owner_id : String
  is_public : Bool

/-- Outcome of the connection-establishment phase. -/
inductive ConnOutcome where
  | closedWith (code : Nat)
  | joined (user : UserRec)

/-- The close code used for a missing project (`websocket.close(code=4404)`). -/
def notFoundCloseCode : Nat := 4404

/-- The close code used for a private project not owned by the caller
(`websocket.close(code=4403)`). -/
def forbiddenCloseCode : Nat := 4403

/-- The close code used by the outermost `except Exception` handler
(`websocket.close(code=4500, reason="Internal server error")`). -/
def internalErrorCloseCode : Nat := 4500

/-- The connection-establishment phase of `project_websocket`.
`get_websocket_user` collapses every authentication failure (bad or
expired token, malformed UUID, unknown or inactive user) into an
`HTTPException`; since the endpoint enters its own `try` before calling
it, that exception is caught by the outermost `except Exception`, which
closes the socket with `internalErrorCloseCode`.  A missing project
closes with 4404, a private project not owned by the caller with 4403;
otherwise the connection joins. -/
def connect_phase (auth : Option UserRec) (projectLookup : Option ProjectRec) :
    ConnOutcome :=
  match auth with
  | none => .closedWith internalErrorCloseCode
  | some user =>
      match projectLookup with
      | none => .closedWith notFoundCloseCode
      | some project =>
          if !project.is_public && !(project.owner_id = user.id) then
            .closedWith forbiddenCloseCode
          else .joined user

/-! ### Shape lemmas for the dict operations -/

theorem aset_ne_nil {α : Type} (d : List (String × α)) (key : String) (val : α) :
    aset d key val ≠ [] := by
  cases d with
  | nil => simp [aset]
  | cons p t =>
      obtain ⟨k, v⟩ := p
      by_cases h : k = key <;> simp [aset, h]

theorem mem_aset {α : Type} {d : List (String × α)} {key : String} {val : α}
    {p : String × α} (hp : p ∈ aset d key val) : p ∈ d ∨ p = (key, val) := by
  induction d with
  | nil => simp [aset] at hp; simp [hp]
  | cons q t ih =>
      obtain ⟨k, v⟩ := q
      by_cases h : k = key
      · simp only [aset, if_pos h] at hp
        rcases List.mem_cons.mp hp with h1 | h1
        · exact Or.inr h1
        · exact Or.inl (List.mem_cons_of_mem _ h1)
      · simp only [aset, if_neg h] at hp
        rcases List.mem_cons.mp hp with h1 | h1
        · exact Or.inl (h1 ▸ List.mem_cons_self _ _)
        · rcases ih h1 with h2 | h2
          · exact Or.inl (List.mem_cons_of_mem _ h2)
          · exact Or.inr h2

theorem mem_map_fst_aset {α : Type} {d : List (String × α)} {key x : String}
    {val : α} (hx : x ∈ (aset d key val).map Prod.fst) :
    x ∈ d.map Prod.fst ∨ x = key := by
  rcases List.mem_map.mp hx with ⟨p, hp, he⟩
  rcases mem_aset hp with h | h
  · exact Or.inl (he ▸ List.mem_map_of_mem Prod.fst h)
  · subst h; exact Or.inr he.symm

theorem nodup_map_fst_aset {α : Type} (d : List (String × α)) (key : String)
    (val : α) (h : (d.map Prod.fst).Nodup) :
    ((aset d key val).map Prod.fst).Nodup := by
  induction d with
  | nil => simp [aset]
  | cons q t ih =>
      obtain ⟨k, v⟩ := q
      simp only [List.map_cons, List.nodup_cons] at h
      by_cases hk : k = key
      · subst hk
        simpa [aset, List.nodup_cons] using h
      · simp only [aset, if_neg hk, List.map_cons, List.nodup_cons]
        refine ⟨fun hm => ?_, ih h.2⟩
        rcases mem_map_fst_aset hm with h1 | h1
        · exact h.1 h1
        · exact hk h1

theorem adel_sublist {α : Type} (d : List (String × α)) (key : String) :
    (adel d key).Sublist d := by
  induction d with
  | nil => simp [adel]
  | cons q t ih =>
      obtain ⟨k, v⟩ := q
      by_cases h : k = key
      · simp only [adel, if_pos h]
        exact (List.sublist_cons_self _ _)
      · simp only [adel, if_neg h]
        exact ih.cons₂ _

theorem mem_adel {α : Type} {d : List (String × α)} {key : String}
    {p : String × α} (hp : p ∈ adel d key) : p ∈ d :=
  (adel_sublist d key).mem hp

theorem nodup_map_fst_adel {α : Type} (d : List (String × α)) (key : String)
    (h : (d.map Prod.fst).Nodup) : ((adel d key).map Prod.fst).Nodup :=
  h.sublist ((adel_sublist d key).map Prod.fst)

theorem aget_mem {α : Type} {d : List (String × α)} {key : String} {v : α}
    (h : aget d key = some v) : (key, v) ∈ d := by
  induction d with
  | nil => simp [aget] at h
  | cons q t ih =>
      obtain ⟨k, w⟩ := q
      by_cases hk : k = key
      · subst hk
        simp only [aget, if_pos rfl] at h
        injection h with h
        exact h ▸ List.mem_cons_self _ _
      · simp only [aget, if_neg hk] at h
        exact List.mem_cons_of_mem _ (ih h)

/-! ### The registry well-formedness invariant -/

/-- Well-formedness of the manager state: each top-level dict has no
duplicate project keys, each per-project dict has no duplicate member
keys, and no per-project dict is empty (an empty project entry is
deleted by `disconnect` on the spot, and `connect` always inserts the
new member into the entry it creates). -/
structure WF (m : ConnectionManager) : Prop where
  ac_nodup : (m.active_connections.map Prod.fst).Nodup
  ac_inner : ∀ p ∈ m.active_connections, (p.2.map Prod.fst).Nodup ∧ p.2 ≠ []
  us_nodup : (m.user_sessions.map Prod.fst).Nodup
  us_inner : ∀ p ∈ m.user_sessions, (p.2.map Prod.fst).Nodup ∧ p.2 ≠ []

theorem WF.empty : WF ConnectionManager.empty :=
  ⟨List.nodup_nil, by simp [ConnectionManager.empty], List.nodup_nil,
   by simp [ConnectionManager.empty]⟩

/-- Generic preservation of the outer-dict part of `WF` under the update
a `disconnect`-style removal performs. -/
theorem outer_wf_remove {α : Type} (P : α → Prop) (d : List (String × α))
    (pid : String) (inner' : α) (hnd : (d.map Prod.fst).Nodup)
    (hin : ∀ p ∈ d, P p.2) (hP : P inner') :
    ((aset d pid inner').map Prod.fst).Nodup ∧
      (∀ p ∈ aset d pid inner', P p.2) := by
  refine ⟨nodup_map_fst_aset d pid inner' hnd, fun p hp => ?_⟩
  rcases mem_aset hp with h | h
  · exact hin p h
  · rw [h]; exact hP

/-! ### Characterizing `disconnect` -/

/-- The state transform `disconnect` applies to each of the two
project dicts: drop the member's slot and garbage-collect the project
entry if it just became empty. -/
def dictRemove {α : Type} (d : List (String × List (String × α)))
    (pid uid : String) : List (String × List (String × α)) :=
  match aget d pid with
  | none => d
  | some inner =>
      let inner' := adel inner uid
      if inner'.isEmpty then adel d pid else aset d pid inner'

/-- Lookup of one member's value across the two-level dict. -/
def memberLookup {α : Type} (d : List (String × List (String × α)))
    (pid uid : String) : Option α :=
  match aget d pid with
  | none => none
  | some inner => aget inner uid

theorem disconnect_def (m : ConnectionManager) (pid uid : String) (t : Nat) :
    (m.disconnect pid uid t).1 =
      ⟨dictRemove m.active_connections pid uid,
       dictRemove m.user_sessions pid uid⟩ := by
  unfold ConnectionManager.disconnect dictRemove
  rcases hus : aget m.user_sessions pid with _ | sess <;>
    rcases hac : aget m.active_connections pid with _ | conns <;>
      simp only [hus, hac]
  · rcases hu : aget sess uid with _ | srec
    · simp [hu]
    · by_cases ht : srec.user_info.isTruthy <;> simp [hu, ht]
  · rcases hu : aget sess uid with _ | srec
    · simp [hu]
    · by_cases ht : srec.user_info.isTruthy <;> simp [hu, ht]

theorem disconnect_events (m : ConnectionManager) (pid uid : String) (t : Nat) :
    (m.disconnect pid uid t).2 =
      match memberLookup m.user_sessions pid uid with
      | some s =>
          if s.user_info.isTruthy then
            [Event.scheduledBroadcast pid (userLeftMsg uid s.user_info t)
               (some uid)]
          else []
      | none => [] := by
  rcases hus : aget m.user_sessions pid with _ | sess
  · simp [ConnectionManager.disconnect, memberLookup, hus]
  · rcases hu : aget sess uid with _ | s
    · simp [ConnectionManager.disconnect, memberLookup, hus, hu]
    · by_cases ht : s.user_info.isTruthy <;>
        simp [ConnectionManager.disconnect, memberLookup, hus, hu, ht]

theorem wf_dictRemove {α : Type} (d : List (String × List (String × α)))
    (pid uid : String) (hnd : (d.map Prod.fst).Nodup)
    (hin : ∀ p ∈ d, (p.2.map Prod.fst).Nodup ∧ p.2 ≠ []) :
    ((dictRemove d pid uid).map Prod.fst).Nodup ∧
      ∀ p ∈ dictRemove d pid uid, (p.2.map Prod.fst).Nodup ∧ p.2 ≠ [] := by
  unfold dictRemove
  rcases hc : aget d pid with _ | inner
  · exact ⟨hnd, hin⟩
  · by_cases he : (adel inner uid).isEmpty
    · simp only [he, if_pos]
      exact ⟨nodup_map_fst_adel d pid hnd, fun p hp => hin p (mem_adel hp)⟩
    · simp only [he]
      rw [if_neg (by simp [he])]
      refine ⟨nodup_map_fst_aset d pid _ hnd, fun p hp => ?_⟩
      rcases mem_aset hp with h | h
      · exact hin p h
      · rw [h]
        refine ⟨nodup_map_fst_adel inner uid (hin (pid, inner) (aget_mem hc)).1, ?_⟩
        simpa [List.isEmpty_iff] using he

/-- `disconnect` preserves the registry invariant. -/
theorem WF.disconnect_pres (m : ConnectionManager) (h : WF m)
    (pid uid : String) (t : Nat) : WF (m.disconnect pid uid t).1 := by
  rw [disconnect_def]
  obtain ⟨h1, h2⟩ := wf_dictRemove m.active_connections pid uid h.ac_nodup h.ac_inner
  obtain ⟨h3, h4⟩ := wf_dictRemove m.user_sessions pid uid h.us_nodup h.us_inner
  exact ⟨h1, h2, h3, h4⟩

theorem memberLookup_dictRemove_self {α : Type}
    (d : List (String × List (String × α))) (pid uid : String)
    (hnd : (d.map Prod.fst).Nodup)
    (hin : ∀ p ∈ d, (p.2.map Prod.fst).Nodup ∧ p.2 ≠ []) :
    memberLookup (dictRemove d pid uid) pid uid = none := by
  unfold dictRemove
  rcases hc : aget d pid with _ | inner
  · simp [memberLookup, hc]
  · by_cases he : (adel inner uid).isEmpty
    · simp only [he, if_pos]
      rw [memberLookup, aget_adel_same d pid hnd]
    · simp only [he]
      rw [if_neg (by simp [he])]
      rw [memberLookup, aget_aset_same]
      exact aget_adel_same inner uid (hin (pid, inner) (aget_mem hc)).1

theorem adel_eq_nil {α : Type} {d : List (String × α)} {key : String}
    (h : adel d key = []) : d = [] ∨ ∃ v, d = [(key, v)] := by
  cases d with
  | nil => exact Or.inl rfl
  | cons p t =>
      obtain ⟨k, v⟩ := p
      by_cases hk : k = key
      · simp only [adel, if_pos hk] at h
        subst h hk
        exact Or.inr ⟨v, rfl⟩
      · simp [adel, hk] at h

theorem memberLookup_dictRemove_other {α : Type}
    (d : List (String × List (String × α))) (pid uid uid' : String)
    (hne : uid' ≠ uid) (hnd : (d.map Prod.fst).Nodup) :
    memberLookup (dictRemove d pid uid) pid uid' =
      memberLookup d pid uid' := by
  unfold dictRemove
  rcases hc : aget d pid with _ | inner
  · rfl
  · by_cases he : (adel inner uid).isEmpty
    · simp only [he, if_pos]
      rw [memberLookup, aget_adel_same d pid hnd]
      rcases adel_eq_nil (List.isEmpty_iff.mp he) with h | ⟨v, h⟩
      · simp [memberLookup, hc, h]
      · have hx : ¬(uid = uid') := fun x => hne x.symm
        simp [memberLookup, hc, h, aget, hx]
    · simp only [he]
      rw [if_neg (by simp [he])]
      rw [memberLookup, aget_aset_same, memberLookup, hc]
      exact aget_adel_other inner uid uid' (fun x => hne x.symm)

/-! ### Characterizing the broadcast phases -/

theorem sendPhase_no_failures (message : Msg) (ex : Option String)
    (conns : List (String × Nat)) :
    sendPhase message ex (fun _ => false) conns =
      ((conns.filter (fun p => !(ex = some p.1))).map
        (fun p => Event.sent p.1 message), []) := by
  induction conns with
  | nil => rfl
  | cons p t ih =>
      by_cases h : ex = some p.1
      · rw [List.filter_cons_of_neg (by simp [h])]
        simpa [sendPhase, h] using ih
      · rw [List.filter_cons_of_pos (by simp [h])]
        simp only [List.map_cons, sendPhase, if_neg h, Bool.false_eq_true,
          if_false, ih]

theorem sendPhase_failed_mem (message : Msg) (ex : Option String)
    (sendFails : String → Bool) (conns : List (String × Nat)) (u : String)
    (hu : u ∈ (sendPhase message ex sendFails conns).2) :
    ¬(ex = some u) ∧ sendFails u = true := by
  induction conns with
  | nil => simp [sendPhase] at hu
  | cons p t ih =>
      by_cases h : ex = some p.1
      · simp only [sendPhase, if_pos h] at hu
        exact ih hu
      · by_cases hf : sendFails p.1
        · simp only [sendPhase, if_neg h, if_pos hf, List.mem_cons] at hu
          rcases hu with hu | hu
          · subst hu; exact ⟨h, hf⟩
          · exact ih hu
        · simp only [sendPhase, if_neg h, if_neg hf] at hu
          exact ih hu

theorem sendPhase_events_shape (message : Msg) (ex : Option String)
    (sendFails : String → Bool) (conns : List (String × Nat)) (e : Event)
    (he : e ∈ (sendPhase message ex sendFails conns).1) :
    ∃ u, ¬(ex = some u) ∧
      (e = Event.sent u message ∨ e = Event.sendFailed u message) := by
  induction conns with
  | nil => simp [sendPhase] at he
  | cons p t ih =>
      by_cases h : ex = some p.1
      · simp only [sendPhase, if_pos h] at he
        exact ih he
      · by_cases hf : sendFails p.1
        · simp only [sendPhase, if_neg h, if_pos hf, List.mem_cons] at he
          rcases he with he | he
          · exact ⟨p.1, h, Or.inr he⟩
          · exact ih he
        · simp only [sendPhase, if_neg h, if_neg hf, List.mem_cons] at he
          rcases he with he | he
          · exact ⟨p.1, h, Or.inl he⟩
          · exact ih he

theorem cleanupPhase_wf (project_id : String) (now : Nat)
    (failed : List String) (m : ConnectionManager) (h : WF m) :
    WF (cleanupPhase project_id now m failed).1 := by
  induction failed generalizing m with
  | nil => exact h
  | cons u t ih =>
      exact ih _ (WF.disconnect_pres m h project_id u now)

theorem cleanupPhase_events_shape (project_id : String) (now : Nat)
    (failed : List String) (m : ConnectionManager) (e : Event)
    (he : e ∈ (cleanupPhase project_id now m failed).2) :
    ∃ p msg ex, e = Event.scheduledBroadcast p msg ex := by
  induction failed generalizing m with
  | nil => simp [cleanupPhase] at he
  | cons u t ih =>
      simp only [cleanupPhase, List.mem_append] at he
      rcases he with he | he
      · rw [disconnect_events] at he
        rcases hl : memberLookup m.user_sessions project_id u with _ | s
        · simp [hl] at he
        · simp only [hl] at he
          by_cases ht : s.user_info.isTruthy
          · simp only [ht, if_true, List.mem_singleton] at he
            exact ⟨project_id, _, some u, he⟩
          · simp [ht] at he
      · exact ih _ he

theorem cleanupPhase_preserves_lookup (project_id uid : String) (now : Nat)
    (failed : List String) (m : ConnectionManager) (h : WF m)
    (hu : uid ∉ failed) :
    memberLookup (cleanupPhase project_id now m failed).1.user_sessions
        project_id uid =
      memberLookup m.user_sessions project_id uid := by
  induction failed generalizing m with
  | nil => rfl
  | cons v t ih =>
      simp only [List.mem_cons, not_or] at hu
      rw [cleanupPhase]
      rw [ih _ (WF.disconnect_pres m h project_id v now) hu.2,
        disconnect_def]
      exact memberLookup_dictRemove_other m.user_sessions project_id v uid
        hu.1 h.us_nodup

theorem broadcast_wf (m : ConnectionManager) (project_id : String)
    (message : Msg) (ex : Option String) (sendFails : String → Bool)
    (now : Nat) (h : WF m) :
    WF (m.broadcast_to_project project_id message ex sendFails now).1 := by
  unfold ConnectionManager.broadcast_to_project
  rcases hc : aget m.active_connections project_id with _ | conns
  · exact h
  · exact cleanupPhase_wf project_id now _ m h

/-- With no delivery failures, a broadcast leaves the state unchanged and
sends the message, in snapshot order, to exactly the non-excluded
members. -/
theorem broadcast_no_failures (m : ConnectionManager) (project_id : String)
    (message : Msg) (ex : Option String) (now : Nat)
    (conns : List (String × Nat))
    (hc : aget m.active_connections project_id = some conns) :
    m.broadcast_to_project project_id message ex (fun _ => false) now =
      (m, (conns.filter (fun p => !(ex = some p.1))).map
        (fun p => Event.sent p.1 message), none) := by
  unfold ConnectionManager.broadcast_to_project
  rw [hc]
  simp [sendPhase_no_failures, cleanupPhase]

theorem broadcast_events_shape (m : ConnectionManager) (project_id : String)
    (message : Msg) (ex : Option String) (sendFails : String → Bool)
    (now : Nat) (e : Event)
    (he : e ∈ (m.broadcast_to_project project_id message ex sendFails now).2.1) :
    (∃ u, ¬(ex = some u) ∧
      (e = Event.sent u message ∨ e = Event.sendFailed u message)) ∨
    (∃ p msg x, e = Event.scheduledBroadcast p msg x) := by
  unfold ConnectionManager.broadcast_to_project at he
  rcases hc : aget m.active_connections project_id with _ | conns <;>
    rw [hc] at he
  · simp at he
  · simp only [List.mem_append] at he
    rcases he with he | he
    · exact Or.inl (sendPhase_events_shape message ex sendFails conns e he)
    · exact Or.inr (cleanupPhase_events_shape project_id now _ m e he)

theorem broadcast_preserves_self_lookup (m : ConnectionManager)
    (project_id uid : String) (message : Msg) (sendFails : String → Bool)
    (now : Nat) (h : WF m) :
    memberLookup (m.broadcast_to_project project_id message (some uid)
        sendFails now).1.user_sessions project_id uid =
      memberLookup m.user_sessions project_id uid := by
  unfold ConnectionManager.broadcast_to_project
  rcases hc : aget m.active_connections project_id with _ | conns
  · rfl
  · refine cleanupPhase_preserves_lookup project_id uid now _ m h ?_
    intro hmem
    exact (sendPhase_failed_mem message (some uid) sendFails conns uid
      hmem).1 rfl

/-! ### Characterizing `connect` -/

theorem aset_aset {α : Type} (d : List (String × α)) (key : String) (v v' : α) :
    aset (aset d key v) key v' = aset d key v' := by
  induction d with
  | nil => simp [aset]
  | cons p t ih =>
      obtain ⟨k, w⟩ := p
      by_cases h : k = key <;> simp [aset, h, ih]

/-- The two-level-dict insertion `connect` performs on each dict:
create the project entry if missing, then set the member's slot. -/
def registerSlot {α : Type} (d : List (String × List (String × α)))
    (pid uid : String) (v : α) : List (String × List (String × α)) :=
  aset d pid (aset ((aget d pid).getD []) uid v)

theorem connect_unfold (m : ConnectionManager) (w : Nat) (pid uid : String)
    (info : JVal) (sf : String → Bool) (t : Nat) :
    m.connect w pid uid info sf t =
      (let m1 : ConnectionManager :=
         ⟨registerSlot m.active_connections pid uid w,
          registerSlot m.user_sessions pid uid ⟨info, t, t⟩⟩
       let bc := m1.broadcast_to_project pid (userJoinedMsg uid info t)
         (some uid) sf t
       let active_users := ((aget bc.1.user_sessions pid).getD []).filterMap
         (fun p =>
           if p.1 = uid then none
           else some (JVal.obj
             [("user_id", .s p.1), ("user_info", p.2.user_info),
              ("connected_at", .n p.2.connected_at)]))
       (bc.1, bc.2.1 ++
         [ConnectionManager.send_personal_message uid
           [("type", .s "active_users"), ("users", .arr active_users),
            ("timestamp", .n t)] sf])) := by
  rcases hc : aget m.active_connections pid with _ | conns <;>
    rcases hu : aget m.user_sessions pid with _ | sess <;>
      simp [ConnectionManager.connect, registerSlot, acontains, hc, hu,
        aset_aset, aget_aset_same]

theorem registerSlot_wf {α : Type} (d : List (String × List (String × α)))
    (pid uid : String) (v : α) (hnd : (d.map Prod.fst).Nodup)
    (hin : ∀ p ∈ d, (p.2.map Prod.fst).Nodup ∧ p.2 ≠ []) :
    ((registerSlot d pid uid v).map Prod.fst).Nodup ∧
      ∀ p ∈ registerSlot d pid uid v,
        (p.2.map Prod.fst).Nodup ∧ p.2 ≠ [] := by
  refine ⟨nodup_map_fst_aset d pid _ hnd, fun p hp => ?_⟩
  rcases mem_aset hp with h | h
  · exact hin p h
  · rw [h]
    constructor
    · rcases hg : aget d pid with _ | inner
      · simp [hg, aset]
      · exact nodup_map_fst_aset _ uid v
          (hin (pid, inner) (aget_mem hg)).1
    · exact aset_ne_nil _ uid v

theorem connect_wf (m : ConnectionManager) (w : Nat) (pid uid : String)
    (info : JVal) (sf : String → Bool) (t : Nat) (h : WF m) :
    WF (m.connect w pid uid info sf t).1 := by
  rw [connect_unfold]
  apply broadcast_wf
  obtain ⟨h1, h2⟩ := registerSlot_wf m.active_connections pid uid w
    h.ac_nodup h.ac_inner
  obtain ⟨h3, h4⟩ := registerSlot_wf m.user_sessions pid uid
    ⟨info, t, t⟩ h.us_nodup h.us_inner
  exact ⟨h1, h2, h3, h4⟩

/-! ### Preservation through the steady-state loop -/

theorem touch_ac (m : ConnectionManager) (pid uid : String) (t : Nat) :
    (m.touch pid uid t).active_connections = m.active_connections := by
  unfold ConnectionManager.touch
  rcases hs : aget m.user_sessions pid with _ | sess <;> simp only [hs]
  rcases hu : aget sess uid with _ | s <;> simp only [hu]

theorem touch_wf (m : ConnectionManager) (pid uid : String) (t : Nat)
    (h : WF m) : WF (m.touch pid uid t) := by
  unfold ConnectionManager.touch
  rcases hs : aget m.user_sessions pid with _ | sess <;> simp only [hs]
  · exact h
  · rcases hu : aget sess uid with _ | s <;> simp only [hu]
    · exact h
    · refine ⟨h.ac_nodup, h.ac_inner,
        nodup_map_fst_aset _ pid _ h.us_nodup, fun p hp => ?_⟩
      rcases mem_aset hp with hm | hm
      · exact h.us_inner p hm
      · rw [hm]
        exact ⟨nodup_map_fst_aset _ uid _
            (h.us_inner (pid, sess) (aget_mem hs)).1,
          aset_ne_nil _ uid _⟩

theorem touch_lookup (m : ConnectionManager) (pid uid : String) (t : Nat) :
    memberLookup (m.touch pid uid t).user_sessions pid uid =
      (memberLookup m.user_sessions pid uid).map
        (fun s => { s with last_activity := t }) := by
  unfold ConnectionManager.touch memberLookup
  rcases hs : aget m.user_sessions pid with _ | sess
  · simp [hs]
  · rcases hu : aget sess uid with _ | s
    · simp [hs, hu]
    · simp [hs, hu, aget_aset_same]

theorem handle_parsed_wf (cm : ConnectionManager) (db : List EditHistoryRec)
    (pid uid : String) (info : JVal) (message : Msg) (pk : Bool)
    (sf : String → Bool) (t : Nat) (h : WF cm) :
    WF (handle_parsed cm db pid uid info message pk sf t).cm := by
  have ht := touch_wf cm pid uid t h
  unfold handle_parsed
  split
  · exact broadcast_wf _ _ _ _ _ _ ht
  · exact broadcast_wf _ _ _ _ _ _ ht
  · exact ht
  · exact ht

theorem handle_inbound_wf (cm : ConnectionManager) (db : List EditHistoryRec)
    (pid uid : String) (info : JVal) (inb : Inbound) (pk : Bool)
    (sf : String → Bool) (t : Nat) (h : WF cm) :
    WF (handle_inbound cm db pid uid info inb pk sf t).cm := by
  cases inb with
  | malformed => exact h
  | msg message => exact handle_parsed_wf cm db pid uid info message pk sf t h

theorem handle_parsed_preserves_info (cm : ConnectionManager)
    (db : List EditHistoryRec) (pid uid : String) (info : JVal)
    (message : Msg) (pk : Bool) (sf : String → Bool) (t : Nat)
    (h : WF cm) (s : SessionInfo)
    (hl : memberLookup cm.user_sessions pid uid = some s) :
    ∃ s', memberLookup
        (handle_parsed cm db pid uid info message pk sf t).cm.user_sessions
        pid uid = some s' ∧ s'.user_info = s.user_info := by
  have htl : memberLookup (cm.touch pid uid t).user_sessions pid uid =
      some { s with last_activity := t } := by
    rw [touch_lookup, hl]; rfl
  have htw := touch_wf cm pid uid t h
  unfold handle_parsed
  split
  · refine ⟨{ s with last_activity := t }, ?_, rfl⟩
    rw [broadcast_preserves_self_lookup _ _ _ _ _ _ htw, htl]
  · refine ⟨{ s with last_activity := t }, ?_, rfl⟩
    rw [broadcast_preserves_self_lookup _ _ _ _ _ _ htw, htl]
  · exact ⟨{ s with last_activity := t }, htl, rfl⟩
  · exact ⟨{ s with last_activity := t }, htl, rfl⟩

theorem handle_inbound_preserves_info (cm : ConnectionManager)
    (db : List EditHistoryRec) (pid uid : String) (info : JVal)
    (inb : Inbound) (pk : Bool) (sf : String → Bool) (t : Nat)
    (h : WF cm) (s : SessionInfo)
    (hl : memberLookup cm.user_sessions pid uid = some s) :
    ∃ s', memberLookup
        (handle_inbound cm db pid uid info inb pk sf t).cm.user_sessions
        pid uid = some s' ∧ s'.user_info = s.user_info := by
  cases inb with
  | malformed => exact ⟨s, hl, rfl⟩
  | msg message =>
      exact handle_parsed_preserves_info cm db pid uid info message
        pk sf t h s hl

theorem runLoop_wf (pid uid : String) (info : JVal)
    (inputs : List LoopInput) (cm : ConnectionManager)
    (db : List EditHistoryRec) (h : WF cm) :
    WF (runLoop pid uid info cm db inputs).cm := by
  induction inputs generalizing cm db with
  | nil => exact h
  | cons i t ih =>
      exact ih _ _ (handle_inbound_wf cm db pid uid info i.inbound
        i.persistOk i.sendFails i.now h)

theorem runLoop_preserves_info (pid uid : String) (info : JVal)
    (inputs : List LoopInput) (cm : ConnectionManager)
    (db : List EditHistoryRec) (h : WF cm) (s : SessionInfo)
    (hl : memberLookup cm.user_sessions pid uid = some s) :
    ∃ s', memberLookup (runLoop pid uid info cm db inputs).cm.user_sessions
        pid uid = some s' ∧ s'.user_info = s.user_info := by
  induction inputs generalizing cm db s with
  | nil => exact ⟨s, hl, rfl⟩
  | cons i t ih =>
      obtain ⟨s1, hs1, he1⟩ := handle_inbound_preserves_info cm db pid uid
        info i.inbound i.persistOk i.sendFails i.now h s hl
      obtain ⟨s2, hs2, he2⟩ := ih _ _ (handle_inbound_wf cm db pid uid info
        i.inbound i.persistOk i.sendFails i.now h) s1 hs1
      exact ⟨s2, hs2, he2.trans he1⟩

/-! ### Sequences of register/deregister operations -/

/-- One registry operation: a `connect` (register) or a `disconnect`
(deregister), with the oracles in force while it runs. -/
inductive Op where
  | register (websocket : Nat) (project_id user_id : String)
      (user_info : JVal) (sendFails : String → Bool) (now : Nat)
  | deregister (project_id user_id : String) (now : Nat)

def applyOp (m : ConnectionManager) : Op → ConnectionManager
  | .register w p u i sf t => (m.connect w p u i sf t).1
  | .deregister p u t => (m.disconnect p u t).1

def applyOps : ConnectionManager → List Op → ConnectionManager
  | m, [] => m
  | m, o :: rest => applyOps (applyOp m o) rest

theorem applyOps_wf (ops : List Op) (m : ConnectionManager) (h : WF m) :
    WF (applyOps m ops) := by
  induction ops generalizing m with
  | nil => exact h
  | cons o rest ih =>
      refine ih _ ?_
      cases o with
      | register w p u i sf t => exact connect_wf m w p u i sf t h
      | deregister p u t => exact WF.disconnect_pres m h p u t

theorem contains_iff_nonempty {α : Type}
    (d : List (String × List (String × α))) (pid : String)
    (hin : ∀ p ∈ d, (p.2.map Prod.fst).Nodup ∧ p.2 ≠ []) :
    acontains d pid = true ↔ 1 ≤ ((aget d pid).getD []).length := by
  unfold acontains
  rcases hg : aget d pid with _ | inner
  · simp
  · simp only [Option.isSome_some, Option.getD_some, true_iff]
    have := (hin (pid, inner) (aget_mem hg)).2
    exact List.length_pos.mpr this

/-! ### Claim theorems -/

/-- C5: for every sequence of register (connect) and deregister
(disconnect) operations starting from the empty manager, each project
dict holds at most one entry per (project id, member id) key (no
duplicate project keys, no duplicate member keys inside a project), and
a project id is present in the registry exactly when its member count is
at least one — empty project entries never linger. -/
theorem registry_at_most_one_entry_and_no_empty_projects
    (ops : List Op) (pid : String) :
    (((applyOps ConnectionManager.empty ops).active_connections.map
        Prod.fst).Nodup ∧
      ∀ p ∈ (applyOps ConnectionManager.empty ops).active_connections,
        (p.2.map Prod.fst).Nodup) ∧
    (acontains (applyOps ConnectionManager.empty ops).active_connections
        pid = true ↔
      1 ≤ ((aget (applyOps ConnectionManager.empty ops).active_connections
        pid).getD []).length) ∧
    (((applyOps ConnectionManager.empty ops).user_sessions.map
        Prod.fst).Nodup ∧
      ∀ p ∈ (applyOps ConnectionManager.empty ops).user_sessions,
        (p.2.map Prod.fst).Nodup) ∧
    (acontains (applyOps ConnectionManager.empty ops).user_sessions
        pid = true ↔
      1 ≤ ((aget (applyOps ConnectionManager.empty ops).user_sessions
        pid).getD []).length) := by
  have h := applyOps_wf ops ConnectionManager.empty WF.empty
  exact ⟨⟨h.ac_nodup, fun p hp => (h.ac_inner p hp).1⟩,
    contains_iff_nonempty _ pid h.ac_inner,
    ⟨h.us_nodup, fun p hp => (h.us_inner p hp).1⟩,
    contains_iff_nonempty _ pid h.us_inner⟩

theorem dictRemove_idem {α : Type} (d : List (String × List (String × α)))
    (pid uid : String) (hnd : (d.map Prod.fst).Nodup)
    (hin : ∀ p ∈ d, (p.2.map Prod.fst).Nodup ∧ p.2 ≠ []) :
    dictRemove (dictRemove d pid uid) pid uid = dictRemove d pid uid := by
  rcases hc : aget d pid with _ | inner
  · unfold dictRemove
    rw [hc]
    rw [hc]
  · by_cases he : (adel inner uid).isEmpty
    · have h1 : dictRemove d pid uid = adel d pid := by
        unfold dictRemove; rw [hc]; simp [he]
      rw [h1]
      unfold dictRemove
      rw [aget_adel_same d pid hnd]
    · have h1 : dictRemove d pid uid = aset d pid (adel inner uid) := by
        unfold dictRemove; rw [hc]; simp [he]
      have hnone : aget (adel inner uid) uid = none :=
        aget_adel_same inner uid (hin (pid, inner) (aget_mem hc)).1
      rw [h1]
      simp only [dictRemove, aget_aset_same,
        adel_eq_of_not_mem _ uid hnone, he, Bool.false_eq_true, if_false]
      exact aset_eq_of_aget _ _ _ (aget_aset_same d pid (adel inner uid))

/-- C6: deregistration is idempotent.  For a registered member with
truthy identity info, the first `disconnect` emits exactly one
`user_left` broadcast task, and a second `disconnect` for the same
(project id, member id) changes nothing: it raises no error (it is a
total function), leaves the state exactly as the first call left it, and
emits no second `user_left` broadcast. -/
theorem deregister_idempotent (m : ConnectionManager) (pid uid : String)
    (t t' : Nat) (h : WF m) (s : SessionInfo)
    (hl : memberLookup m.user_sessions pid uid = some s)
    (htr : s.user_info.isTruthy = true) :
    (m.disconnect pid uid t).2 =
      [Event.scheduledBroadcast pid (userLeftMsg uid s.user_info t)
        (some uid)] ∧
    (m.disconnect pid uid t).1.disconnect pid uid t' =
      ((m.disconnect pid uid t).1, []) := by
  constructor
  · rw [disconnect_events]
    simp only [hl, htr, if_true]
  · have hstate := disconnect_def m pid uid t
    have hlook : memberLookup (m.disconnect pid uid t).1.user_sessions
        pid uid = none := by
      rw [hstate]
      exact memberLookup_dictRemove_self m.user_sessions pid uid
        h.us_nodup h.us_inner
    refine Prod.ext ?_ ?_
    · rw [disconnect_def, hstate]
      have h1 := dictRemove_idem m.active_connections pid uid
        h.ac_nodup h.ac_inner
      have h2 := dictRemove_idem m.user_sessions pid uid
        h.us_nodup h.us_inner
      simp only [h1, h2]
    · rw [disconnect_events]
      simp only [hlook]

/-- A small concrete identity-info object, as `project_websocket` builds
one (truthy: a non-empty dict). -/
def infoOf (u : String) : JVal :=
  .obj [("id", .s u), ("username", .s u), ("full_name", .s u),
        ("email", .s u)]

/-- A concrete presence session for witnesses. -/
def sampleSession (u : String) : SessionInfo := ⟨infoOf u, 0, 0⟩

/-- A concrete manager with members `a` and `b` in project `p`. -/
def twoMemberManager : ConnectionManager :=
  ⟨[("p", [("a", 1), ("b", 2)])],
   [("p", [("a", sampleSession "a"), ("b", sampleSession "b")])]⟩

theorem twoMemberManager_wf : WF twoMemberManager := by
  refine ⟨by decide, by decide, by decide, ?_⟩
  intro p hp
  simp only [twoMemberManager, List.mem_singleton] at hp
  subst hp
  exact ⟨by decide, by simp⟩

theorem deregister_idempotent_witness :
    (twoMemberManager.disconnect "p" "b" 7).2 =
      [Event.scheduledBroadcast "p"
        (userLeftMsg "b" (sampleSession "b").user_info 7) (some "b")] ∧
    (twoMemberManager.disconnect "p" "b" 7).1.disconnect "p" "b" 8 =
      ((twoMemberManager.disconnect "p" "b" 7).1, []) :=
  deregister_idempotent twoMemberManager "p" "b" 7 8
    twoMemberManager_wf (sampleSession "b") rfl rfl

/-- A concrete manager with members `a`, `b` and `c` in project `p`. -/
def threeMemberManager : ConnectionManager :=
  ⟨[("p", [("a", 1), ("b", 2), ("c", 3)])],
   [("p", [("a", sampleSession "a"), ("b", sampleSession "b"),
           ("c", sampleSession "c")])]⟩

/-- C4 (counterexample): at the concrete project p with members
{a, b, c}, broadcasting excluding a with b's send failing, the
operation's return value is `None` — the Python function body contains
no `return expr` statement, and every call site discards the result —
so the broadcast does not return a list reporting b as failed, contrary
to the claim. -/
theorem broadcast_returns_no_failed_list :
    (ConnectionManager.broadcast_to_project threeMemberManager "p"
      [("k", .s "v")] (some "a") (fun x => x = "b") 7).2.2 = none ∧
    ∀ l : List String,
      ¬(ConnectionManager.broadcast_to_project threeMemberManager "p"
        [("k", .s "v")] (some "a") (fun x => x = "b") 7).2.2 = some l := by
  refine ⟨rfl, fun l h => ?_⟩
  rw [show (ConnectionManager.broadcast_to_project threeMemberManager "p"
    [("k", .s "v")] (some "a") (fun x => x = "b") 7).2.2 = none
    from rfl] at h
  exact Option.noConfusion h

/-- C4 (amended): broadcasting to a project with members {A, B, C}
excluding A attempts sends to exactly {B, C}; when B's send fails, the
send loop's internal `failed_connections` list (the second component of
`sendPhase`, a local of the function) records exactly B, the failure
does not abort the delivery to C (the `sent C` event still occurs after
B's failure), the broadcast's own cleanup loop then disconnects B, and a
subsequent membership lookup no longer contains B; the operation returns
None to its caller rather than the failed list. -/
theorem broadcast_failure_isolated (pid A B C : String) (wa wb wc : Nat)
    (sa sb sc : SessionInfo) (message : Msg) (now : Nat)
    (hAB : ¬A = B) (hAC : ¬A = C) (hCB : ¬C = B)
    (htr : sb.user_info.isTruthy = true) :
    sendPhase message (some A) (fun x => x = B)
        [(A, wa), (B, wb), (C, wc)] =
      ([Event.sendFailed B message, Event.sent C message], [B]) ∧
    ConnectionManager.broadcast_to_project
        ⟨[(pid, [(A, wa), (B, wb), (C, wc)])],
         [(pid, [(A, sa), (B, sb), (C, sc)])]⟩
        pid message (some A) (fun x => x = B) now =
      (⟨[(pid, [(A, wa), (C, wc)])], [(pid, [(A, sa), (C, sc)])]⟩,
       [Event.sendFailed B message, Event.sent C message,
        Event.scheduledBroadcast pid (userLeftMsg B sb.user_info now)
          (some B)],
       none) ∧
    memberLookup
      (ConnectionManager.broadcast_to_project
        ⟨[(pid, [(A, wa), (B, wb), (C, wc)])],
         [(pid, [(A, sa), (B, sb), (C, sc)])]⟩
        pid message (some A) (fun x => x = B) now).1.user_sessions pid B
      = none := by
  have hBA : ¬B = A := fun h => hAB h.symm
  have hBC : ¬B = C := fun h => hCB h.symm
  have hCA : ¬C = A := fun h => hAC h.symm
  refine ⟨?_, ?_, ?_⟩
  · simp [sendPhase, hAB, hAC, hCB, hBA, hBC, hCA]
  · simp [ConnectionManager.broadcast_to_project, sendPhase, cleanupPhase,
      ConnectionManager.disconnect, aget, aset, adel, acontains,
      hAB, hAC, hCB, hBA, hBC, hCA, htr]
  · simp [ConnectionManager.broadcast_to_project, sendPhase, cleanupPhase,
      ConnectionManager.disconnect, memberLookup, aget, aset, adel,
      acontains, hAB, hAC, hCB, hBA, hBC, hCA, htr]

theorem broadcast_failure_isolated_witness :
    sendPhase [("k", .s "v")] (some "a") (fun x => x = "b")
        [("a", 1), ("b", 2), ("c", 3)] =
      ([Event.sendFailed "b" [("k", .s "v")],
        Event.sent "c" [("k", .s "v")]], ["b"]) ∧
    ConnectionManager.broadcast_to_project
        ⟨[("p", [("a", 1), ("b", 2), ("c", 3)])],
         [("p", [("a", sampleSession "a"), ("b", sampleSession "b"),
                 ("c", sampleSession "c")])]⟩
        "p" [("k", .s "v")] (some "a") (fun x => x = "b") 7 =
      (⟨[("p", [("a", 1), ("c", 3)])],
        [("p", [("a", sampleSession "a"), ("c", sampleSession "c")])]⟩,
       [Event.sendFailed "b" [("k", .s "v")],
        Event.sent "c" [("k", .s "v")],
        Event.scheduledBroadcast "p"
          (userLeftMsg "b" (sampleSession "b").user_info 7) (some "b")],
       none) ∧
    memberLookup
      (ConnectionManager.broadcast_to_project
        ⟨[("p", [("a", 1), ("b", 2), ("c", 3)])],
         [("p", [("a", sampleSession "a"), ("b", sampleSession "b"),
                 ("c", sampleSession "c")])]⟩
        "p" [("k", .s "v")] (some "a") (fun x => x = "b") 7).1.user_sessions
      "p" "b" = none :=
  broadcast_failure_isolated "p" "a" "b" "c" 1 2 3
    (sampleSession "a") (sampleSession "b") (sampleSession "c")
    [("k", .s "v")] 7 (by decide) (by decide) (by decide) rfl

/-- C7: a member Z connecting to a project with existing members {X, Y}
causes exactly one `user_joined` send to each of X and Y (none to Z),
and exactly one `active_users` snapshot to Z listing exactly X and Y and
not Z; connecting to an empty project sends `user_joined` to no one and
delivers an empty `active_users` list. -/
theorem join_announcement (pid X Y Z : String) (wx wy wz : Nat)
    (sx sy : SessionInfo) (iz : JVal) (now : Nat)
    (hXZ : ¬X = Z) (hYZ : ¬Y = Z) :
    ConnectionManager.connect
        ⟨[(pid, [(X, wx), (Y, wy)])], [(pid, [(X, sx), (Y, sy)])]⟩
        wz pid Z iz (fun _ => false) now =
      (⟨[(pid, [(X, wx), (Y, wy), (Z, wz)])],
        [(pid, [(X, sx), (Y, sy), (Z, ⟨iz, now, now⟩)])]⟩,
       [Event.sent X (userJoinedMsg Z iz now),
        Event.sent Y (userJoinedMsg Z iz now),
        Event.sent Z [("type", .s "active_users"),
          ("users", .arr
            [.obj [("user_id", .s X), ("user_info", sx.user_info),
                   ("connected_at", .n sx.connected_at)],
             .obj [("user_id", .s Y), ("user_info", sy.user_info),
                   ("connected_at", .n sy.connected_at)]]),
          ("timestamp", .n now)]]) ∧
    ConnectionManager.connect ConnectionManager.empty wz pid Z iz
        (fun _ => false) now =
      (⟨[(pid, [(Z, wz)])], [(pid, [(Z, ⟨iz, now, now⟩)])]⟩,
       [Event.sent Z [("type", .s "active_users"), ("users", .arr []),
          ("timestamp", .n now)]]) := by
  have hZX : ¬Z = X := fun h => hXZ h.symm
  have hZY : ¬Z = Y := fun h => hYZ h.symm
  constructor
  · simp [ConnectionManager.connect, ConnectionManager.broadcast_to_project,
      ConnectionManager.send_personal_message, sendPhase, cleanupPhase,
      aget, aset, adel, acontains, hXZ, hYZ, hZX, hZY]
  · simp [ConnectionManager.connect, ConnectionManager.broadcast_to_project,
      ConnectionManager.send_personal_message, sendPhase, cleanupPhase,
      ConnectionManager.empty, aget, aset, adel, acontains]

theorem join_announcement_witness :
    ConnectionManager.connect
        ⟨[("p", [("x", 1), ("y", 2)])],
         [("p", [("x", sampleSession "x"), ("y", sampleSession "y")])]⟩
        9 "p" "z" (infoOf "z") (fun _ => false) 5 =
      (⟨[("p", [("x", 1), ("y", 2), ("z", 9)])],
        [("p", [("x", sampleSession "x"), ("y", sampleSession "y"),
                ("z", ⟨infoOf "z", 5, 5⟩)])]⟩,
       [Event.sent "x" (userJoinedMsg "z" (infoOf "z") 5),
        Event.sent "y" (userJoinedMsg "z" (infoOf "z") 5),
        Event.sent "z" [("type", .s "active_users"),
          ("users", .arr
            [.obj [("user_id", .s "x"),
                   ("user_info", (sampleSession "x").user_info),
                   ("connected_at", .n (sampleSession "x").connected_at)],
             .obj [("user_id", .s "y"),
                   ("user_info", (sampleSession "y").user_info),
                   ("connected_at", .n (sampleSession "y").connected_at)]]),
          ("timestamp", .n 5)]]) ∧
    ConnectionManager.connect ConnectionManager.empty 9 "p" "z"
        (infoOf "z") (fun _ => false) 5 =
      (⟨[("p", [("z", 9)])], [("p", [("z", ⟨infoOf "z", 5, 5⟩)])]⟩,
       [Event.sent "z" [("type", .s "active_users"), ("users", .arr []),
          ("timestamp", .n 5)]]) :=
  join_announcement "p" "x" "y" "z" 1 2 9
    (sampleSession "x") (sampleSession "y") (infoOf "z") 5
    (by decide) (by decide)

/-! ### Stamping lemmas -/

theorem stampMsg_user_id (message : Msg) (uid : String) (info : JVal)
    (now : Nat) :
    aget (stampMsg message uid info now) "user_id" = some (.s uid) := by
  unfold stampMsg
  rw [aget_aset_other _ _ _ _ (by decide),
    aget_aset_other _ _ _ _ (by decide), aget_aset_same]

theorem stampMsg_user_info (message : Msg) (uid : String) (info : JVal)
    (now : Nat) :
    aget (stampMsg message uid info now) "user_info" = some info := by
  unfold stampMsg
  rw [aget_aset_other _ _ _ _ (by decide), aget_aset_same]

theorem stampMsg_timestamp (message : Msg) (uid : String) (info : JVal)
    (now : Nat) :
    aget (stampMsg message uid info now) "timestamp" = some (.n now) := by
  unfold stampMsg
  rw [aget_aset_same]

theorem stampMsg_echoes (message : Msg) (uid : String) (info : JVal)
    (now : Nat) (k : String) (h1 : ¬k = "user_id") (h2 : ¬k = "user_info")
    (h3 : ¬k = "timestamp") :
    aget (stampMsg message uid info now) k = aget message k := by
  unfold stampMsg
  rw [aget_aset_other _ _ _ _ (fun h => h3 h.symm),
    aget_aset_other _ _ _ _ (fun h => h2 h.symm),
    aget_aset_other _ _ _ _ (fun h => h1 h.symm)]

/-- C2: an `edit` envelope whose persistence succeeds appends exactly one
Edit Record, the append event precedes every broadcast send in the trace
(persist-before-broadcast), and the envelope is broadcast to exactly the
members of the project other than the sender, each copy being the
original message with the sender's identity (`user_id`, `user_info`) and
a server-assigned `timestamp` stamped over it while every other
sender-supplied field is echoed unchanged. -/
theorem edit_success_append_then_broadcast (cm : ConnectionManager)
    (db : List EditHistoryRec) (pid uid : String) (info : JVal)
    (message : Msg) (now : Nat) (conns : List (String × Nat))
    (hty : aget message "type" = some (.s "edit"))
    (hconns : aget cm.active_connections pid = some conns) :
    handle_inbound cm db pid uid info (.msg message) true (fun _ => false)
        now =
      ⟨cm.touch pid uid now,
       db ++ [mkEditHistory pid uid message],
       (mkEditHistory pid uid message).event ::
         (conns.filter (fun p => !(p.1 = uid))).map
           (fun p => Event.sent p.1 (stampMsg message uid info now))⟩ ∧
    (∀ k, ¬k = "user_id" → ¬k = "user_info" → ¬k = "timestamp" →
      aget (stampMsg message uid info now) k = aget message k) := by
  constructor
  · have htc : aget (cm.touch pid uid now).active_connections pid =
        some conns := by rw [touch_ac]; exact hconns
    have hbc := broadcast_no_failures (cm.touch pid uid now) pid
      (stampMsg message uid info now) (some uid) now conns htc
    show handle_parsed cm db pid uid info message true (fun _ => false)
        now = _
    unfold handle_parsed
    simp only [hty, hbc, handle_edit_message]
    have hfil : conns.filter (fun p => !(uid = p.1)) =
        conns.filter (fun p => !(p.1 = uid)) := by
      apply List.filter_congr
      intro p hp
      simp [eq_comm]
    simp [hfil]
  · intro k h1 h2 h3
    exact stampMsg_echoes message uid info now k h1 h2 h3

theorem edit_success_append_then_broadcast_witness :
    handle_inbound twoMemberManager [] "p" "a" (infoOf "a")
        (.msg [("type", .s "edit"), ("action", .s "update")]) true
        (fun _ => false) 6 =
      ⟨twoMemberManager.touch "p" "a" 6,
       [] ++ [mkEditHistory "p" "a"
         [("type", .s "edit"), ("action", .s "update")]],
       (mkEditHistory "p" "a"
         [("type", .s "edit"), ("action", .s "update")]).event ::
         (([("a", 1), ("b", 2)] : List (String × Nat)).filter
             (fun p => !(p.1 = "a"))).map
           (fun p => Event.sent p.1
             (stampMsg [("type", .s "edit"), ("action", .s "update")]
               "a" (infoOf "a") 6))⟩ ∧
    (∀ k, ¬k = "user_id" → ¬k = "user_info" → ¬k = "timestamp" →
      aget (stampMsg [("type", .s "edit"), ("action", .s "update")]
        "a" (infoOf "a") 6) k =
      aget [("type", .s "edit"), ("action", .s "update")] k) :=
  edit_success_append_then_broadcast twoMemberManager [] "p" "a"
    (infoOf "a") [("type", .s "edit"), ("action", .s "update")] 6
    [("a", 1), ("b", 2)] rfl rfl

/-! ### C1: persistence failure during edit handling -/

/-- Is this event a successful send to someone other than `sender`
(a broadcast delivery)? -/
def isBroadcastSendTo (sender : String) : Event → Bool
  | .sent r _ => !(r = sender)
  | _ => false

/-- Is this event an `error`-typed envelope delivered to `sender`? -/
def isErrorAckTo (sender : String) : Event → Bool
  | .sent r msg =>
      if r = sender then
        match aget msg "type" with
        | some (.s t) => t = "error"
        | _ => false
      else false
  | _ => false

/-- C1 (counterexample): with members {a, b} of project p, an inbound
`edit` envelope from a whose persistence fails produces one broadcast
send (to b) and zero error acknowledgments to a — not zero broadcast
sends and one error acknowledgment as claimed.  `handle_edit_message`
catches the failure internally (rollback, log) and returns normally, and
`project_websocket` then broadcasts unconditionally. -/
theorem edit_persist_failure_counterexample :
    ¬((handle_inbound twoMemberManager [] "p" "a" (infoOf "a")
        (.msg [("type", .s "edit")]) false (fun _ => false) 5).events.countP
          (isBroadcastSendTo "a") = 0 ∧
      (handle_inbound twoMemberManager [] "p" "a" (infoOf "a")
        (.msg [("type", .s "edit")]) false (fun _ => false) 5).events.countP
          (isErrorAckTo "a") = 1) := by
  decide

/-- C1 (amended): an `edit` envelope whose persistence fails leaves the
edit-history table unchanged, but the failure is swallowed: no error
acknowledgment (indeed no `error`-typed envelope at all) is sent to the
sender, the envelope is still broadcast to the other members exactly as
in the success case (the success trace is the failure trace preceded by
the append event), and the handler emits no close — the sender's
connection remains open. -/
theorem edit_persist_failure_swallowed (cm : ConnectionManager)
    (db : List EditHistoryRec) (pid uid : String) (info : JVal)
    (message : Msg) (sf : String → Bool) (now : Nat)
    (hty : aget message "type" = some (.s "edit")) :
    (handle_inbound cm db pid uid info (.msg message) false sf now).db =
      db ∧
    (handle_inbound cm db pid uid info (.msg message) false sf now).cm =
      (handle_inbound cm db pid uid info (.msg message) true sf now).cm ∧
    (handle_inbound cm db pid uid info (.msg message) true sf now).events =
      (mkEditHistory pid uid message).event ::
        (handle_inbound cm db pid uid info (.msg message) false sf
          now).events ∧
    (∀ e ∈ (handle_inbound cm db pid uid info (.msg message) false sf
        now).events, isErrorAckTo uid e = false) ∧
    (∀ c, Event.closed c ∉
      (handle_inbound cm db pid uid info (.msg message) false sf
        now).events) := by
  have hredf : handle_inbound cm db pid uid info (.msg message) false sf
      now =
      ⟨((cm.touch pid uid now).broadcast_to_project pid
          (stampMsg message uid info now) (some uid) sf now).1, db,
       ((cm.touch pid uid now).broadcast_to_project pid
          (stampMsg message uid info now) (some uid) sf now).2.1⟩ := by
    show handle_parsed cm db pid uid info message false sf now = _
    unfold handle_parsed
    simp [hty, handle_edit_message]
  have hredt : handle_inbound cm db pid uid info (.msg message) true sf
      now =
      ⟨((cm.touch pid uid now).broadcast_to_project pid
          (stampMsg message uid info now) (some uid) sf now).1,
       db ++ [mkEditHistory pid uid message],
       (mkEditHistory pid uid message).event ::
         ((cm.touch pid uid now).broadcast_to_project pid
            (stampMsg message uid info now) (some uid) sf now).2.1⟩ := by
    show handle_parsed cm db pid uid info message true sf now = _
    unfold handle_parsed
    simp [hty, handle_edit_message, EditHistoryRec.event]
  refine ⟨by rw [hredf], by rw [hredf, hredt], by rw [hredf, hredt],
    ?_, ?_⟩
  · intro e he
    rw [hredf] at he
    rcases broadcast_events_shape _ _ _ _ _ _ e he with
      ⟨u, hu, h | h⟩ | ⟨p, msg, x, h⟩
    · subst h
      have hne : ¬u = uid := fun hx => hu (by rw [hx])
      simp [isErrorAckTo, hne]
    · subst h; rfl
    · subst h; rfl
  · intro c hmem
    rw [hredf] at hmem
    rcases broadcast_events_shape _ _ _ _ _ _ _ hmem with
      ⟨u, hu, h | h⟩ | ⟨p, msg, x, h⟩ <;> simp at h

theorem edit_persist_failure_swallowed_witness :
    (handle_inbound twoMemberManager [] "p" "a" (infoOf "a")
        (.msg [("type", .s "edit")]) false (fun _ => false) 5).db = [] ∧
    (handle_inbound twoMemberManager [] "p" "a" (infoOf "a")
        (.msg [("type", .s "edit")]) false (fun _ => false) 5).cm =
      (handle_inbound twoMemberManager [] "p" "a" (infoOf "a")
        (.msg [("type", .s "edit")]) true (fun _ => false) 5).cm ∧
    (handle_inbound twoMemberManager [] "p" "a" (infoOf "a")
        (.msg [("type", .s "edit")]) true (fun _ => false) 5).events =
      (mkEditHistory "p" "a" [("type", .s "edit")]).event ::
        (handle_inbound twoMemberManager [] "p" "a" (infoOf "a")
          (.msg [("type", .s "edit")]) false (fun _ => false) 5).events ∧
    (∀ e ∈ (handle_inbound twoMemberManager [] "p" "a" (infoOf "a")
        (.msg [("type", .s "edit")]) false (fun _ => false) 5).events,
      isErrorAckTo "a" e = false) ∧
    (∀ c, Event.closed c ∉
      (handle_inbound twoMemberManager [] "p" "a" (infoOf "a")
        (.msg [("type", .s "edit")]) false (fun _ => false) 5).events) :=
  edit_persist_failure_swallowed twoMemberManager [] "p" "a" (infoOf "a")
    [("type", .s "edit")] (fun _ => false) 5 rfl

/-! ### C3: close codes of the connection-establishment phase -/

/-- C3 (counterexample): an authentication failure does not close with a
distinct unauthenticated code — it is caught by the outermost
`except Exception` handler and closed with 4500, the very internal-error
code the claim requires it to be distinct from. -/
theorem auth_failure_uses_internal_error_code :
    connect_phase none (some { owner_id := "owner", is_public := true }) =
      ConnOutcome.closedWith 4500 ∧
    internalErrorCloseCode = 4500 :=
  ⟨rfl, rfl⟩

/-- C3 (amended): project-not-found closes with 4404 and a private
project not owned by the caller closes with 4403 — distinct from each
other and from the internal-error code 4500; an authentication failure,
however, closes with the same internal-error code 4500 (whatever the
project lookup would have returned), not with a distinct
unauthenticated-close signal. -/
theorem close_codes_assignment (u : UserRec) (p : ProjectRec)
    (lookup : Option ProjectRec)
    (hpriv : p.is_public = false) (hown : ¬p.owner_id = u.id) :
    connect_phase none lookup =
      ConnOutcome.closedWith internalErrorCloseCode ∧
    connect_phase (some u) none =
      ConnOutcome.closedWith notFoundCloseCode ∧
    connect_phase (some u) (some p) =
      ConnOutcome.closedWith forbiddenCloseCode ∧
    notFoundCloseCode ≠ forbiddenCloseCode ∧
    notFoundCloseCode ≠ internalErrorCloseCode ∧
    forbiddenCloseCode ≠ internalErrorCloseCode := by
  refine ⟨rfl, rfl, ?_, by decide, by decide, by decide⟩
  simp [connect_phase, hpriv, hown]

theorem close_codes_assignment_witness :
    connect_phase none (some { owner_id := "o", is_public := false }) =
      ConnOutcome.closedWith internalErrorCloseCode ∧
    connect_phase (some ⟨"u", "u", "u", "u"⟩) none =
      ConnOutcome.closedWith notFoundCloseCode ∧
    connect_phase (some ⟨"u", "u", "u", "u"⟩)
        (some { owner_id := "o", is_public := false }) =
      ConnOutcome.closedWith forbiddenCloseCode ∧
    notFoundCloseCode ≠ forbiddenCloseCode ∧
    notFoundCloseCode ≠ internalErrorCloseCode ∧
    forbiddenCloseCode ≠ internalErrorCloseCode :=
  close_codes_assignment ⟨"u", "u", "u", "u"⟩
    { owner_id := "o", is_public := false }
    (some { owner_id := "o", is_public := false }) rfl (by decide)

/-! ### C8: server-side stamping of fanned-out copies -/

/-- C8: every successful send produced by handling a member-originated
`edit` or `cursor` envelope carries `user_id`, `user_info` and
`timestamp` values set by the server at send time, overriding any values
the sending client supplied for those fields in the inbound envelope. -/
theorem fanout_fields_are_server_set (cm : ConnectionManager)
    (db : List EditHistoryRec) (pid uid : String) (info : JVal)
    (message : Msg) (pk : Bool) (sf : String → Bool) (now : Nat)
    (r : String) (payload : Msg)
    (hty : aget message "type" = some (.s "edit") ∨
           aget message "type" = some (.s "cursor"))
    (he : Event.sent r payload ∈
      (handle_inbound cm db pid uid info (.msg message) pk sf
        now).events) :
    aget payload "user_id" = some (.s uid) ∧
    aget payload "user_info" = some info ∧
    aget payload "timestamp" = some (.n now) := by
  have hpay : payload = stampMsg message uid info now := by
    rcases hty with hty | hty
    · revert he
      show Event.sent r payload ∈
          (handle_parsed cm db pid uid info message pk sf now).events → _
      unfold handle_parsed
      simp only [hty]
      intro he
      simp only [List.mem_append, handle_edit_message] at he
      rcases he with he | he
      · rcases hpk : pk with _ | _ <;> rw [hpk] at he <;>
          simp [EditHistoryRec.event] at he
      · rcases broadcast_events_shape _ _ _ _ _ _ _ he with
          ⟨u, hu, h | h⟩ | ⟨p, msg, x, h⟩
        · injection h with h1 h2
        · simp at h
        · simp at h
    · revert he
      show Event.sent r payload ∈
          (handle_parsed cm db pid uid info message pk sf now).events → _
      unfold handle_parsed
      simp only [hty]
      intro he
      rcases broadcast_events_shape _ _ _ _ _ _ _ he with
        ⟨u, hu, h | h⟩ | ⟨p, msg, x, h⟩
      · injection h with h1 h2
      · simp at h
      · simp at h
  subst hpay
  exact ⟨stampMsg_user_id message uid info now,
    stampMsg_user_info message uid info now,
    stampMsg_timestamp message uid info now⟩

theorem fanout_fields_are_server_set_witness :
    aget (stampMsg [("type", .s "cursor"), ("user_id", .s "fake"),
        ("timestamp", .n 999)] "a" (infoOf "a") 6) "user_id" =
      some (.s "a") ∧
    aget (stampMsg [("type", .s "cursor"), ("user_id", .s "fake"),
        ("timestamp", .n 999)] "a" (infoOf "a") 6) "user_info" =
      some (infoOf "a") ∧
    aget (stampMsg [("type", .s "cursor"), ("user_id", .s "fake"),
        ("timestamp", .n 999)] "a" (infoOf "a") 6) "timestamp" =
      some (.n 6) :=
  fanout_fields_are_server_set twoMemberManager [] "p" "a" (infoOf "a")
    [("type", .s "cursor"), ("user_id", .s "fake"), ("timestamp", .n 999)]
    true (fun _ => false) 6 "b"
    (stampMsg [("type", .s "cursor"), ("user_id", .s "fake"),
      ("timestamp", .n 999)] "a" (infoOf "a") 6)
    (Or.inr rfl)
    (by
      have h : (handle_inbound twoMemberManager [] "p" "a" (infoOf "a")
          (.msg [("type", .s "cursor"), ("user_id", .s "fake"),
            ("timestamp", .n 999)]) true (fun _ => false) 6).events =
          [Event.sent "b" (stampMsg [("type", .s "cursor"),
            ("user_id", .s "fake"), ("timestamp", .n 999)] "a"
            (infoOf "a") 6)] := rfl
      rw [h]
      exact List.mem_singleton.mpr rfl)

/-! ### C9: guaranteed cleanup on every exit of the steady-state loop -/

/-- C9: however the receive loop of a joined connection ends — normal
peer disconnect or an unexpected fault — and whatever inbound traffic it
processed, the member is deregistered from both registry dicts, and
since identity info was present (and truthy) a `user_left` broadcast
task excluding the departed member is part of the trace.  The cleanup is
in the `finally` block, so it runs on every exit path. -/
theorem cleanup_on_every_exit (cm : ConnectionManager)
    (db : List EditHistoryRec) (pid uid : String)
    (inputs : List LoopInput) (cause : ExitCause) (nowEnd : Nat)
    (s : SessionInfo) (h : WF cm)
    (hl : memberLookup cm.user_sessions pid uid = some s)
    (htr : s.user_info.isTruthy = true) :
    memberLookup (run_joined cm db pid uid s.user_info inputs cause
        nowEnd).cm.user_sessions pid uid = none ∧
    memberLookup (run_joined cm db pid uid s.user_info inputs cause
        nowEnd).cm.active_connections pid uid = none ∧
    Event.scheduledBroadcast pid (userLeftMsg uid s.user_info nowEnd)
        (some uid) ∈
      (run_joined cm db pid uid s.user_info inputs cause nowEnd).events := by
  have hwf := runLoop_wf pid uid s.user_info inputs cm db h
  obtain ⟨s', hs', hinfo⟩ := runLoop_preserves_info pid uid s.user_info
    inputs cm db h s hl
  have hfin1 : ((runLoop pid uid s.user_info cm db inputs).cm.disconnect
      pid uid nowEnd).1 =
      ⟨dictRemove (runLoop pid uid s.user_info cm db
          inputs).cm.active_connections pid uid,
       dictRemove (runLoop pid uid s.user_info cm db
          inputs).cm.user_sessions pid uid⟩ :=
    disconnect_def _ pid uid nowEnd
  have hfin2 : ((runLoop pid uid s.user_info cm db inputs).cm.disconnect
      pid uid nowEnd).2 =
      [Event.scheduledBroadcast pid (userLeftMsg uid s.user_info nowEnd)
        (some uid)] := by
    rw [disconnect_events]
    simp only [hs', hinfo, htr, if_true]
  refine ⟨?_, ?_, ?_⟩
  · show memberLookup ((runLoop pid uid s.user_info cm db
        inputs).cm.disconnect pid uid nowEnd).1.user_sessions pid uid =
      none
    rw [hfin1]
    exact memberLookup_dictRemove_self _ pid uid hwf.us_nodup hwf.us_inner
  · show memberLookup ((runLoop pid uid s.user_info cm db
        inputs).cm.disconnect pid uid nowEnd).1.active_connections pid
        uid = none
    rw [hfin1]
    exact memberLookup_dictRemove_self _ pid uid hwf.ac_nodup hwf.ac_inner
  · show _ ∈ (runLoop pid uid s.user_info cm db inputs).events ++
      ((runLoop pid uid s.user_info cm db inputs).cm.disconnect pid uid
        nowEnd).2 ++ _
    rw [hfin2]
    simp

theorem cleanup_on_every_exit_witness :
    memberLookup (run_joined twoMemberManager [] "p" "b"
        (sampleSession "b").user_info
        [⟨.msg [("type", .s "cursor")], true, fun _ => false, 3⟩]
        ExitCause.fault 9).cm.user_sessions "p" "b" = none ∧
    memberLookup (run_joined twoMemberManager [] "p" "b"
        (sampleSession "b").user_info
        [⟨.msg [("type", .s "cursor")], true, fun _ => false, 3⟩]
        ExitCause.fault 9).cm.active_connections "p" "b" = none ∧
    Event.scheduledBroadcast "p"
        (userLeftMsg "b" (sampleSession "b").user_info 9) (some "b") ∈
      (run_joined twoMemberManager [] "p" "b"
        (sampleSession "b").user_info
        [⟨.msg [("type", .s "cursor")], true, fun _ => false, 3⟩]
        ExitCause.fault 9).events :=
  cleanup_on_every_exit twoMemberManager [] "p" "b"
    [⟨.msg [("type", .s "cursor")], true, fun _ => false, 3⟩]
    ExitCause.fault 9 (sampleSession "b") twoMemberManager_wf rfl rfl

/-! ### C10: defaulting of missing edit fields -/

/-- C10: when an accepted `edit` envelope is missing fields, the Edit
Record is built with defaults instead of rejecting the envelope: a
missing `action` or `object_type` is recorded as the string "unknown",
and missing `object_id`, `changes`, `previous_data`, `new_data`,
`session_id` are recorded as null (`none`); record construction and
`handle_edit_message` are total functions of the message, so the absence
of any of these fields cannot make the edit handler raise (and even a
persistence failure returns normally with the table unchanged). -/
theorem edit_missing_fields_defaulted (pid uid : String) (message : Msg)
    (db : List EditHistoryRec)
    (ha : aget message "action" = none)
    (ho : aget message "object_type" = none)
    (hoi : aget message "object_id" = none)
    (hc : aget message "changes" = none)
    (hp : aget message "previous_data" = none)
    (hn : aget message "new_data" = none)
    (hs : aget message "session_id" = none) :
    mkEditHistory pid uid message =
      ⟨pid, uid, .s "unknown", .s "unknown", none, none, none, none,
       none⟩ ∧
    handle_edit_message true db pid uid message =
      (db ++ [⟨pid, uid, .s "unknown", .s "unknown", none, none, none,
        none, none⟩],
       [EditHistoryRec.event ⟨pid, uid, .s "unknown", .s "unknown", none,
        none, none, none, none⟩]) ∧
    handle_edit_message false db pid uid message = (db, []) := by
  have hmk : mkEditHistory pid uid message =
      ⟨pid, uid, .s "unknown", .s "unknown", none, none, none, none,
       none⟩ := by
    unfold mkEditHistory
    rw [ha, ho, hoi, hc, hp, hn, hs]
    rfl
  exact ⟨hmk, by simp [handle_edit_message, hmk], rfl⟩

theorem edit_missing_fields_defaulted_witness :
    mkEditHistory "p" "a" [("type", .s "edit")] =
      ⟨"p", "a", .s "unknown", .s "unknown", none, none, none, none,
       none⟩ ∧
    handle_edit_message true [] "p" "a" [("type", .s "edit")] =
      ([] ++ [⟨"p", "a", .s "unknown", .s "unknown", none, none, none,
        none, none⟩],
       [EditHistoryRec.event ⟨"p", "a", .s "unknown", .s "unknown", none,
        none, none, none, none⟩]) ∧
    handle_edit_message false [] "p" "a" [("type", .s "edit")] =
      ([], []) :=
  edit_missing_fields_defaulted "p" "a" [("type", .s "edit")] []
    rfl rfl rfl rfl rfl rfl rfl
